import Mathlib

/-!
Verification development for the tibidi peer-to-peer group chat core.

The definitions below are a shallow embedding of `src/store.ts` (the revision
with `lastHeardFrom`, `PING`/`PONG` heartbeats, the 5 s supervisor interval,
`forgetMember` and the `APP_STATE` persistence blob) together with the data
model of `src/types.ts`.

Modelling conventions:
* JS `Record<string, T>` objects are insertion-ordered association lists
  `List (String × T)`; `{...m, [k]: v}` is `setKey`, the `removeKey` helper of
  the source is `removeKey`, and `m[k]` is `lookupKey`.
* `Array.prototype.sort` (stable since ES2019) with the `sortEvents` comparator
  is `List.insertionSort`, which is also stable; `localeCompare` on the
  UUID-shaped peer ids is modelled as lexicographic comparison of the
  character lists (`strLe`).
* Timestamps (`Date.now()`) are `Int`; fresh UUIDs are passed in as arguments.
* JS truthiness on the optional strings the store tests (`payload?.name`,
  invite fields, `myPeerId`) is `truthyName`: `undefined`/missing and the
  empty string are falsy.
* Side effects are made explicit: frames passed to `conn.send` and the
  `connectToPeer` invocations a handler performs are returned alongside the
  updated state, and the `localStorage` blob under `APP_STATE` is an
  `Option PersistedState` threaded through the persistence functions.
-/

namespace Tibidi

/-- Payload of a `GroupEvent` (`payload: any` in `types.ts`); the store only
ever reads the optional `name` (of `GROUP_CREATED`) and `text` (of
`MESSAGE_ADDED`) fields, either of which may be absent. -/
structure Payload where
  name : Option String := none
  text : Option String := none
deriving DecidableEq, Repr

/-- Replicated event, `GroupEvent` of `types.ts`. -/
structure GroupEvent where
  id : String
  timestamp : Int
  authorPeerId : String
  type : String
  payload : Payload
deriving DecidableEq, Repr

/-- Runtime handle to a PeerJS endpoint (`peer: Peer | null` in `types.ts`);
the store only reads its `destroyed` and `disconnected` flags. -/
structure PeerHandle where
  destroyed : Bool
  disconnected : Bool
deriving DecidableEq, Repr

/-- Runtime handle to a `DataConnection`; the store only reads its `open`
flag. -/
structure Conn where
  isOpen : Bool
deriving DecidableEq, Repr

/-- Full group state, `Group` of `types.ts`: the persisted fields plus the
runtime maps keyed by remote peer id. -/
structure Group where
  id : String
  name : String
  myPeerId : String
  events : List GroupEvent
  peer : Option PeerHandle
  connections : List (String × Conn)
  isConnecting : List (String × Int)
  lastHeardFrom : List (String × Int)
deriving DecidableEq, Repr

/-- Wire frames, `P2PMessage` of `types.ts`. -/
inductive P2PMessage where
  | syncRequest (eventIds : List String)
  | syncResponse (missingEvents : List GroupEvent)
  | eventBroadcast (event : GroupEvent)
  | ping
  | pong
deriving DecidableEq, Repr

/-- Read `m[k]` on a JS record modelled as an association list. -/
def lookupKey (m : List (String × α)) (k : String) : Option α :=
  (m.find? (fun p => p.1 == k)).map (fun p => p.2)

/-- JS spread update `{...m, [k]: v}`: overwrite in place when the key exists,
append otherwise (JS string keys keep insertion order). -/
def setKey (m : List (String × α)) (k : String) (v : α) : List (String × α) :=
  if m.any (fun p => p.1 == k) then m.map (fun p => if p.1 == k then (k, v) else p)
  else m ++ [(k, v)]

/-- The `removeKey` helper of `store.ts` (object destructuring that drops one
key). -/
def removeKey (m : List (String × α)) (k : String) : List (String × α) :=
  m.filter (fun p => p.1 != k)

/-- JS truthiness of a possibly-missing string: `undefined` and `""` are
falsy. -/
def truthyName : Option String → Bool
  | none => false
  | some s => !s.isEmpty

/-- Lexicographic comparison of character lists, the model of
`localeCompare`-induced order on the UUID-shaped peer ids. -/
def charListLe : List Char → List Char → Bool
  | [], _ => true
  | _ :: _, [] => false
  | x :: xs, y :: ys => if x = y then charListLe xs ys else decide (x < y)

/-- Lexicographic `≤` on strings. -/
def strLe (a b : String) : Bool :=
  charListLe a.data b.data

/-- The `sortEvents` comparator of `store.ts` as a boolean `≤`:
`(a,b) => a.timestamp - b.timestamp`, ties broken by
`a.authorPeerId.localeCompare(b.authorPeerId)`. -/
def eventLE (a b : GroupEvent) : Bool :=
  if a.timestamp = b.timestamp then strLe a.authorPeerId b.authorPeerId
  else decide (a.timestamp < b.timestamp)

/-- The comparator as a relation. -/
def eventLEP (a b : GroupEvent) : Prop :=
  eventLE a b = true

instance : DecidableRel eventLEP := fun a b =>
  inferInstanceAs (Decidable (eventLE a b = true))

/-- The `sortEvents` helper of `store.ts`: a stable sort of the events by the
deterministic comparator (`Array.prototype.sort` is stable; so is
`List.insertionSort`). -/
def sortEvents (events : List GroupEvent) : List GroupEvent :=
  List.insertionSort eventLEP events

/-- Sortedness by the deterministic comparator: timestamps ascending, ties
broken by lexicographically ascending `authorPeerId` (invariant I1). -/
def EventsSorted (l : List GroupEvent) : Prop :=
  List.Sorted eventLEP l

instance (l : List GroupEvent) : Decidable (EventsSorted l) :=
  inferInstanceAs (Decidable (List.Pairwise eventLEP l))

/-- JS `group.connections[remotePeerId]?.open`. -/
def connOpenTo (g : Group) (remotePeerId : String) : Bool :=
  match lookupKey g.connections remotePeerId with
  | some c => c.isOpen
  | none => false

/-- JS truthiness of `group.isConnecting[remotePeerId]` (a dial-start
timestamp; absent or `0` is falsy). -/
def isConnectingTruthy (g : Group) (remotePeerId : String) : Bool :=
  match lookupKey g.isConnecting remotePeerId with
  | some t => t != 0
  | none => false

/-- The `connectToPeer` action of `store.ts` restricted to the one group it
touches: guarded single-flight dial that only records the dial start time in
`isConnecting` (the created `DataConnection` is not yet open). The `||` chain
is the source's sequence of early returns. -/
def connectToPeer (g : Group) (remotePeerId : String) (now : Int) : Group :=
  match g.peer with
  | none => g
  | some p =>
    if p.destroyed || remotePeerId.isEmpty || (remotePeerId == g.myPeerId)
        || connOpenTo g remotePeerId || isConnectingTruthy g remotePeerId then g
    else { g with isConnecting := setKey g.isConnecting remotePeerId now }

/-- Fold of the `connectToPeer` calls a handler performs, in call order. -/
def dialAll (g : Group) (targets : List String) (now : Int) : Group :=
  targets.foldl (fun gg p => connectToPeer gg p now) g

/-- First-occurrence deduplication, the iteration order of a JS `Set` built
from a list. -/
def dedupFirst (l : List String) : List String :=
  l.foldl (fun acc x => if x ∈ acc then acc else acc ++ [x]) []

/-- Result of the `conn.on('data')` handler: the updated group, the frames
passed to `conn.send` on this connection, and the members passed to
`connectToPeer`, in order. -/
structure HandleResult where
  group : Group
  frames : List P2PMessage
  dials : List String
deriving DecidableEq, Repr

/-- The `conn.on('data')` handler of `_setupConnectionListeners` in
`store.ts`: stamp `lastHeardFrom`, answer `PING` with `PONG`, and dispatch on
`EVENT_BROADCAST` / `SYNC_REQUEST` / `SYNC_RESPONSE` exactly as the source
does. -/
def handleData (g : Group) (remotePeerId : String) (now : Int) (msg : P2PMessage) :
    HandleResult :=
  let gHeard : Group := { g with lastHeardFrom := setKey g.lastHeardFrom remotePeerId now }
  match msg with
  | .ping => { group := gHeard, frames := [P2PMessage.pong], dials := [] }
  | .pong => { group := gHeard, frames := [], dials := [] }
  | .eventBroadcast newEvent =>
    if g.events.any (fun e => e.id == newEvent.id) then
      { group := gHeard, frames := [], dials := [] }
    else
      { group := { gHeard with events := sortEvents (g.events ++ [newEvent]) },
        frames := [], dials := [] }
  | .syncRequest eventIds =>
    let missingEvents := g.events.filter (fun e => !(eventIds.contains e.id))
    if missingEvents.isEmpty then
      { group := gHeard, frames := [], dials := [] }
    else
      { group := gHeard, frames := [P2PMessage.syncResponse missingEvents], dials := [] }
  | .syncResponse newEvents =>
    let existingEventIds := g.events.map (fun e => e.id)
    let uniqueNewEvents := newEvents.filter (fun e => !(existingEventIds.contains e.id))
    if uniqueNewEvents.isEmpty then
      { group := gHeard, frames := [], dials := [] }
    else
      let updatedEvents := sortEvents (g.events ++ uniqueNewEvents)
      let groupName :=
        (updatedEvents.find? (fun e => e.type == "GROUP_CREATED")).bind
          (fun e => e.payload.name)
      let newName :=
        if truthyName groupName && (g.name == "Joining...") then groupName.getD g.name
        else g.name
      let g1 : Group := { gHeard with events := updatedEvents, name := newName }
      let dials :=
        if g.myPeerId.isEmpty then []
        else (dedupFirst (updatedEvents.map (fun e => e.authorPeerId))).filter
          (fun p => !(p == g.myPeerId))
      { group := dialAll g1 dials now, frames := [], dials := dials }

/-- The `addEventAndBroadcast` action of `store.ts` on one group: build the
event from a fresh id, the clock and `myPeerId`, re-sort the log, and send an
`EVENT_BROADCAST` frame to every open connection. -/
def addEventAndBroadcast (g : Group) (freshId : String) (now : Int) (ty : String)
    (pl : Payload) : Group × List (String × P2PMessage) :=
  let newEvent : GroupEvent :=
    { id := freshId, timestamp := now, authorPeerId := g.myPeerId, type := ty, payload := pl }
  let updatedEvents := sortEvents (g.events ++ [newEvent])
  let g1 : Group := { g with events := updatedEvents }
  let frames := g.connections.filterMap
    (fun pc => if pc.2.isOpen then some (pc.1, P2PMessage.eventBroadcast newEvent) else none)
  (g1, frames)

/-- Result of `forgetMember`: the updated group, the connections that were
closed, and the frames sent (none: forget is purely local). -/
structure ForgetResult where
  group : Group
  closedSessions : List String
  frames : List (String × P2PMessage)
deriving DecidableEq, Repr

/-- The `forgetMember` action of `store.ts` on one group: close any live
session to the member, drop every event the member authored, and remove the
member from the three runtime maps. -/
def forgetMember (g : Group) (memberPeerId : String) : ForgetResult :=
  let closedSessions :=
    if (lookupKey g.connections memberPeerId).isSome then [memberPeerId] else []
  { group := { g with
      events := g.events.filter (fun e => !(e.authorPeerId == memberPeerId)),
      connections := removeKey g.connections memberPeerId,
      isConnecting := removeKey g.isConnecting memberPeerId,
      lastHeardFrom := removeKey g.lastHeardFrom memberPeerId },
    closedSessions := closedSessions,
    frames := [] }

/-- Persisted slice of a group, `PersistedGroup` of `types.ts`. -/
structure PersistedGroup where
  id : String
  name : String
  myPeerId : String
  events : List GroupEvent
deriving DecidableEq, Repr

/-- The `APP_STATE` blob contents, `PersistedState` of `types.ts`. -/
structure PersistedState where
  groups : List (String × PersistedGroup)
  activeGroupId : Option String
deriving DecidableEq, Repr

/-- In-memory store state (`groups` and `activeGroupId` of the zustand
store). -/
structure StoreState where
  groups : List (String × Group)
  activeGroupId : Option String
deriving DecidableEq, Repr

/-- Projection of a runtime group onto its persisted fields. -/
def persistGroup (g : Group) : PersistedGroup :=
  { id := g.id, name := g.name, myPeerId := g.myPeerId, events := g.events }

/-- The `saveStoredState` helper of `store.ts`: a full-blob replacement of
`APP_STATE`, except that it returns without writing when the group map is
empty. -/
def saveStoredState (st : StoreState) (blob : Option PersistedState) :
    Option PersistedState :=
  if st.groups.isEmpty then blob
  else some
    { groups := st.groups.map (fun kg => (kg.1, persistGroup kg.2)),
      activeGroupId := st.activeGroupId }

/-- The `getStoredState` helper of `store.ts`: an absent or malformed blob
reads as the empty state. -/
def getStoredState (blob : Option PersistedState) : PersistedState :=
  blob.getD { groups := [], activeGroupId := none }

/-- Reconstruction of a runtime group from its persisted slice, as
`initializeStore` does (fresh empty runtime maps, no endpoint yet). -/
def runtimeGroup (pg : PersistedGroup) : Group :=
  { id := pg.id, name := pg.name, myPeerId := pg.myPeerId, events := pg.events,
    peer := none, connections := [], isConnecting := [], lastHeardFrom := [] }

/-- The state-loading part of `initializeStore`: rebuild the runtime groups
from the blob and keep the stored `activeGroupId` only when it is truthy and
still names a group. -/
def initStoreState (blob : Option PersistedState) : StoreState :=
  let stored := getStoredState blob
  let runtimeGroups := stored.groups.map (fun kg => (kg.1, runtimeGroup kg.2))
  let activeGroupId :=
    match stored.activeGroupId with
    | none => none
    | some gid =>
      if gid.isEmpty then none
      else if (lookupKey runtimeGroups gid).isSome then some gid
      else none
  { groups := runtimeGroups, activeGroupId := activeGroupId }

/-- The `addEventAndBroadcast` action at store level: update the group and
persist (the `_updateGroupState` call carries `events`, so `saveStoredState`
runs). Frames sent are dropped here; `leaveGroup` only needs the state and
blob. -/
def addEventStore (st : StoreState) (blob : Option PersistedState) (gid freshId : String)
    (now : Int) (ty : String) (pl : Payload) : StoreState × Option PersistedState :=
  match lookupKey st.groups gid with
  | none => (st, blob)
  | some g =>
    let g1 := (addEventAndBroadcast g freshId now ty pl).1
    let st1 : StoreState := { st with groups := setKey st.groups gid g1 }
    (st1, saveStoredState st1 blob)

/-- The `leaveGroup` action of `store.ts`: broadcast a best-effort
`MEMBER_LEFT` event (which persists the log), then — the body of the 500 ms
`setTimeout` — destroy the endpoint, delete the group, clear `activeGroupId`
if it pointed at the group, and persist. -/
def leaveGroup (st : StoreState) (blob : Option PersistedState) (gid freshId : String)
    (now : Int) : StoreState × Option PersistedState :=
  match lookupKey st.groups gid with
  | none => (st, blob)
  | some _ =>
    let stepA := addEventStore st blob gid freshId now "MEMBER_LEFT" {}
    let stA := stepA.1
    let blobA := stepA.2
    let newGroups := removeKey stA.groups gid
    let newActiveGroupId :=
      if stA.activeGroupId = some gid then none else stA.activeGroupId
    let stB : StoreState := { groups := newGroups, activeGroupId := newActiveGroupId }
    (stB, saveStoredState stB blobA)

/-- Parsed invite code `{groupId, peerId}`; either field may be missing from
the parsed JSON. -/
structure Invite where
  groupId : Option String
  peerId : Option String
deriving DecidableEq, Repr

/-- Result of `joinGroup`: the store state, the blob, and whether the
invalid-invite alert was shown. -/
structure JoinResult where
  state : StoreState
  blob : Option PersistedState
  invalidInvite : Bool
deriving DecidableEq, Repr

/-- The `joinGroup` action of `store.ts`. `parsedInvite` is the outcome of
`JSON.parse(inviteCode)`: `none` when parsing throws. A falsy `groupId` or
`peerId` throws into the same catch, which shows the invalid-invite alert and
changes nothing. A known group is re-dialed and made active; otherwise a
placeholder replica is created, persisted and made active, and its endpoint
is started. -/
def joinGroup (st : StoreState) (blob : Option PersistedState)
    (parsedInvite : Option Invite) (freshPeerId : String) (now : Int) : JoinResult :=
  match parsedInvite with
  | none => { state := st, blob := blob, invalidInvite := true }
  | some invite =>
    if !(truthyName invite.groupId) || !(truthyName invite.peerId) then
      { state := st, blob := blob, invalidInvite := true }
    else
      let gid := invite.groupId.getD ""
      let remotePeerId := invite.peerId.getD ""
      match lookupKey st.groups gid with
      | some g =>
        let g1 := connectToPeer g remotePeerId now
        let st1 : StoreState :=
          { groups := setKey st.groups gid g1, activeGroupId := some gid }
        { state := st1, blob := saveStoredState st1 blob, invalidInvite := false }
      | none =>
        let newGroup : Group :=
          { id := gid, name := "Joining...", myPeerId := freshPeerId, events := [],
            peer := none, connections := [], isConnecting := [], lastHeardFrom := [] }
        let st1 : StoreState :=
          { groups := setKey st.groups gid newGroup, activeGroupId := some gid }
        let blob1 := saveStoredState st1 blob
        let startedGroup : Group :=
          { newGroup with peer := some { destroyed := false, disconnected := false } }
        let st2 : StoreState := { st1 with groups := setKey st1.groups gid startedGroup }
        { state := st2, blob := blob1, invalidInvite := false }

/-- What the supervisor tick does to one open session. -/
inductive SessionAction where
  | closeConn
  | sendPing
  | keepSilent
deriving DecidableEq, Repr

/-- The heartbeat branch of the supervisor interval in `initializeStore`:
close after 30 s of silence, ping after 15 s, otherwise leave the session
alone (`lastHeardFrom[peerId] || 0` is applied by the caller). -/
def sessionAction (now lastHeard : Int) : SessionAction :=
  if now - lastHeard > 30000 then SessionAction.closeConn
  else if now - lastHeard > 15000 then SessionAction.sendPing
  else SessionAction.keepSilent

/-- The per-connection sweep of the supervisor interval: every open session is
paired with the action taken for it. -/
def supervisorActions (g : Group) (now : Int) : List (String × SessionAction) :=
  g.connections.filterMap (fun pc =>
    if pc.2.isOpen then
      some (pc.1, sessionAction now ((lookupKey g.lastHeardFrom pc.1).getD 0))
    else none)

/-! Order-theoretic facts about the comparator, and basic facts about the
embedded operations, used by the claim theorems below. -/

theorem charListLe_total : ∀ (a b : List Char), charListLe a b = true ∨ charListLe b a = true
  | [], _ => Or.inl rfl
  | _ :: _, [] => Or.inr rfl
  | x :: xs, y :: ys => by
    by_cases hxy : x = y
    · subst hxy
      simpa [charListLe] using charListLe_total xs ys
    · have hyx : y ≠ x := fun hh => hxy hh.symm
      rcases lt_or_gt_of_ne hxy with h | h
      · left
        simp [charListLe, hxy, h]
      · right
        simp [charListLe, hyx, h]

theorem charListLe_trans : ∀ (a b c : List Char),
    charListLe a b = true → charListLe b c = true → charListLe a c = true
  | [], _, _, _, _ => rfl
  | _ :: _, [], _, hab, _ => by simp [charListLe] at hab
  | _ :: _, _ :: _, [], _, hbc => by simp [charListLe] at hbc
  | x :: xs, y :: ys, z :: zs, hab, hbc => by
    simp only [charListLe] at hab hbc ⊢
    by_cases hxy : x = y <;> by_cases hyz : y = z
    · subst hxy
      subst hyz
      simp only [if_pos rfl] at hab hbc ⊢
      exact charListLe_trans xs ys zs hab hbc
    · subst hxy
      simp only [if_pos rfl, if_neg hyz] at hab hbc ⊢
      exact hbc
    · subst hyz
      simp only [if_pos rfl, if_neg hxy] at hab hbc ⊢
      exact hab
    · simp only [if_neg hxy, if_neg hyz] at hab hbc
      have hxz : x < z := lt_trans (of_decide_eq_true hab) (of_decide_eq_true hbc)
      have hne : x ≠ z := ne_of_lt hxz
      simp [if_neg hne, hxz]

theorem strLe_total (a b : String) : strLe a b = true ∨ strLe b a = true :=
  charListLe_total a.data b.data

theorem strLe_trans {a b c : String} (hab : strLe a b = true) (hbc : strLe b c = true) :
    strLe a c = true :=
  charListLe_trans a.data b.data c.data hab hbc

theorem eventLE_trans {a b c : GroupEvent} (hab : eventLE a b = true)
    (hbc : eventLE b c = true) : eventLE a c = true := by
  unfold eventLE at hab hbc ⊢
  by_cases h1 : a.timestamp = b.timestamp <;> by_cases h2 : b.timestamp = c.timestamp
  · have h3 : a.timestamp = c.timestamp := h1.trans h2
    simp only [if_pos h1] at hab
    simp only [if_pos h2] at hbc
    simp only [if_pos h3]
    exact strLe_trans hab hbc
  · simp only [if_neg h2] at hbc
    have hlt : a.timestamp < c.timestamp := h1 ▸ of_decide_eq_true hbc
    simp [ne_of_lt hlt, hlt]
  · simp only [if_neg h1] at hab
    have hlt : a.timestamp < c.timestamp := h2 ▸ of_decide_eq_true hab
    simp [ne_of_lt hlt, hlt]
  · simp only [if_neg h1] at hab
    simp only [if_neg h2] at hbc
    have hlt : a.timestamp < c.timestamp :=
      lt_trans (of_decide_eq_true hab) (of_decide_eq_true hbc)
    simp [ne_of_lt hlt, hlt]

theorem eventLE_total (a b : GroupEvent) : eventLE a b = true ∨ eventLE b a = true := by
  unfold eventLE
  by_cases h : a.timestamp = b.timestamp
  · simp only [if_pos h, if_pos h.symm]
    exact strLe_total a.authorPeerId b.authorPeerId
  · have hne : b.timestamp ≠ a.timestamp := fun hh => h hh.symm
    simp only [if_neg h, if_neg hne]
    rcases lt_or_gt_of_ne h with hlt | hlt
    · exact Or.inl (decide_eq_true hlt)
    · exact Or.inr (decide_eq_true hlt)

instance : IsTotal GroupEvent eventLEP :=
  ⟨fun a b => eventLE_total a b⟩

instance : IsTrans GroupEvent eventLEP :=
  ⟨fun _ _ _ hab hbc => eventLE_trans hab hbc⟩

theorem sortEvents_sorted (l : List GroupEvent) : EventsSorted (sortEvents l) :=
  List.sorted_insertionSort eventLEP l

theorem sortEvents_perm (l : List GroupEvent) : (sortEvents l).Perm l :=
  List.perm_insertionSort eventLEP l

theorem mem_sortEvents {a : GroupEvent} {l : List GroupEvent} :
    a ∈ sortEvents l ↔ a ∈ l :=
  (sortEvents_perm l).mem_iff

theorem connectToPeer_proj (g : Group) (p : String) (now : Int) :
    (connectToPeer g p now).events = g.events
    ∧ (connectToPeer g p now).name = g.name
    ∧ (connectToPeer g p now).myPeerId = g.myPeerId
    ∧ (connectToPeer g p now).connections = g.connections
    ∧ (connectToPeer g p now).lastHeardFrom = g.lastHeardFrom := by
  unfold connectToPeer
  cases g.peer with
  | none => exact ⟨rfl, rfl, rfl, rfl, rfl⟩
  | some p =>
    dsimp only
    split_ifs <;> simp

theorem dialAll_proj (targets : List String) (g : Group) (now : Int) :
    (dialAll g targets now).events = g.events
    ∧ (dialAll g targets now).name = g.name := by
  induction targets generalizing g with
  | nil => exact ⟨rfl, rfl⟩
  | cons t ts ih =>
    have h := connectToPeer_proj g t now
    have h2 := ih (connectToPeer g t now)
    simp only [dialAll, List.foldl_cons] at h2 ⊢
    exact ⟨h2.1.trans h.1, h2.2.trans h.2.1⟩

theorem any_id_eq_iff (l : List GroupEvent) (i : String) :
    (l.any (fun e => e.id == i)) = true ↔ i ∈ l.map (fun e => e.id) := by
  rw [List.any_eq_true]
  constructor
  · rintro ⟨x, hx, hbeq⟩
    exact List.mem_map.mpr ⟨x, hx, beq_iff_eq.mp hbeq⟩
  · intro hm
    rcases List.mem_map.mp hm with ⟨x, hx, hfx⟩
    exact ⟨x, hx, beq_iff_eq.mpr hfx⟩

theorem handleData_eventBroadcast_events (g : Group) (rp : String) (now : Int)
    (e : GroupEvent) :
    (handleData g rp now (P2PMessage.eventBroadcast e)).group.events =
      if g.events.any (fun x => x.id == e.id) then g.events
      else sortEvents (g.events ++ [e]) := by
  simp only [handleData]
  split <;> rename_i h <;> simp_all

theorem handleData_syncResponse_events (g : Group) (rp : String) (now : Int)
    (M : List GroupEvent) :
    (handleData g rp now (P2PMessage.syncResponse M)).group.events =
      if (M.filter (fun e => !((g.events.map (fun e => e.id)).contains e.id))).isEmpty
      then g.events
      else sortEvents
        (g.events ++ M.filter (fun e => !((g.events.map (fun e => e.id)).contains e.id))) := by
  simp only [handleData]
  split <;> rename_i h
  · simp_all
  · simp_all [(dialAll_proj _ _ _).1]

/-! Claim theorems. -/

/-- C1: starting from a log satisfying invariant I1, each of the three
operations that can change a group's log — the local append of
`addEventAndBroadcast`, the merge of an `EVENT_BROADCAST`, and the merge of a
`SYNC_RESPONSE` — leaves the events list sorted by timestamp ascending with
ties broken by lexicographically ascending `authorPeerId` (the `EventsSorted`
predicate). -/
theorem c1_log_order (g : Group) (freshId : String) (now : Int) (ty : String) (pl : Payload)
    (rp : String) (e : GroupEvent) (M : List GroupEvent)
    (h : EventsSorted g.events) :
    EventsSorted (addEventAndBroadcast g freshId now ty pl).1.events
    ∧ EventsSorted (handleData g rp now (P2PMessage.eventBroadcast e)).group.events
    ∧ EventsSorted (handleData g rp now (P2PMessage.syncResponse M)).group.events := by
  refine ⟨sortEvents_sorted _, ?_, ?_⟩
  · simp only [handleData]
    split
    · exact h
    · exact sortEvents_sorted _
  · simp only [handleData]
    split
    · exact h
    · rw [(dialAll_proj _ _ _).1]
      exact sortEvents_sorted _

/-- C1 witness: the theorem applied to a concrete one-event group. -/
def c1Event : GroupEvent :=
  { id := "e0", timestamp := 1, authorPeerId := "me", type := "GROUP_CREATED",
    payload := { name := some "demo" } }

/-- Concrete group for the C1 witness. -/
def c1Group : Group :=
  { id := "g", name := "demo", myPeerId := "me", events := [c1Event], peer := none,
    connections := [], isConnecting := [], lastHeardFrom := [] }

theorem c1_log_order_witness :
    EventsSorted c1Group.events
    ∧ EventsSorted (addEventAndBroadcast c1Group "f1" 5 "MESSAGE_ADDED" {}).1.events :=
  ⟨by decide,
   (c1_log_order c1Group "f1" 5 "MESSAGE_ADDED" {} "rp" c1Event [] (by decide)).1⟩

/-- C2: on `SYNC_REQUEST`, the handler sends exactly one `SYNC_RESPONSE`
carrying precisely the local events whose id is not in the request's id set,
in the local log's order (a sublist of the local log), and sends nothing when
that set is empty. -/
theorem c2_sync_request_response (g : Group) (rp : String) (now : Int)
    (eventIds : List String) :
    ((handleData g rp now (P2PMessage.syncRequest eventIds)).frames =
      if (g.events.filter (fun e => !(eventIds.contains e.id))).isEmpty then []
      else [P2PMessage.syncResponse (g.events.filter (fun e => !(eventIds.contains e.id)))])
    ∧ (g.events.filter (fun e => !(eventIds.contains e.id))).Sublist g.events
    ∧ (∀ e : GroupEvent,
        e ∈ g.events.filter (fun e => !(eventIds.contains e.id)) ↔
          e ∈ g.events ∧ e.id ∉ eventIds) := by
  refine ⟨?_, List.filter_sublist g.events, ?_⟩
  · simp only [handleData]
    split <;> rename_i hsplit <;> simp [hsplit]
  · intro e
    simp [List.mem_filter, List.elem_iff]

/-- C5: `forgetMember` keeps exactly the events not authored by the forgotten
peer, in the same relative order (a sublist of the old log), and sends no
frame to any peer. -/
theorem c5_forget_member (g : Group) (memberPeerId : String) :
    ((forgetMember g memberPeerId).group.events =
        g.events.filter (fun e => !(e.authorPeerId == memberPeerId)))
    ∧ (forgetMember g memberPeerId).group.events.Sublist g.events
    ∧ (∀ e : GroupEvent, e ∈ (forgetMember g memberPeerId).group.events ↔
        (e ∈ g.events ∧ e.authorPeerId ≠ memberPeerId))
    ∧ (forgetMember g memberPeerId).frames = [] := by
  refine ⟨rfl, List.filter_sublist g.events, ?_, rfl⟩
  intro e
  simp [forgetMember, List.mem_filter]

/-- C3: inserting an event via `EVENT_BROADCAST` is idempotent — if the id is
already in the log the events list is unchanged; after handling the broadcast
the log contains the event's id, and handling the same broadcast again is a
no-op on the log. -/
theorem c3_insert_idempotent (g : Group) (rp rp2 : String) (now now2 : Int)
    (e : GroupEvent) :
    ((e.id ∈ g.events.map (fun x => x.id)) →
      (handleData g rp now (P2PMessage.eventBroadcast e)).group.events = g.events)
    ∧ e.id ∈ ((handleData g rp now (P2PMessage.eventBroadcast e)).group.events.map
        (fun x => x.id))
    ∧ (handleData ((handleData g rp now (P2PMessage.eventBroadcast e)).group) rp2 now2
        (P2PMessage.eventBroadcast e)).group.events
      = (handleData g rp now (P2PMessage.eventBroadcast e)).group.events := by
  by_cases hex : (g.events.any (fun x => x.id == e.id)) = true
  · have h1 : (handleData g rp now (P2PMessage.eventBroadcast e)).group.events = g.events := by
      rw [handleData_eventBroadcast_events, if_pos hex]
    have h2 : e.id ∈ ((handleData g rp now
        (P2PMessage.eventBroadcast e)).group.events.map (fun x => x.id)) := by
      rw [h1]
      exact (any_id_eq_iff _ _).mp hex
    refine ⟨fun _ => h1, h2, ?_⟩
    rw [handleData_eventBroadcast_events, h1, if_pos hex]
  · have h1 : (handleData g rp now (P2PMessage.eventBroadcast e)).group.events =
        sortEvents (g.events ++ [e]) := by
      rw [handleData_eventBroadcast_events, if_neg hex]
    have hmem : e ∈ (handleData g rp now (P2PMessage.eventBroadcast e)).group.events := by
      rw [h1]
      exact mem_sortEvents.mpr (List.mem_append.mpr (Or.inr (List.mem_singleton.mpr rfl)))
    have h2 : e.id ∈ ((handleData g rp now
        (P2PMessage.eventBroadcast e)).group.events.map (fun x => x.id)) :=
      List.mem_map.mpr ⟨e, hmem, rfl⟩
    refine ⟨fun hmem0 => absurd ((any_id_eq_iff _ _).mpr hmem0) hex, h2, ?_⟩
    rw [handleData_eventBroadcast_events, if_pos ((any_id_eq_iff _ _).mpr h2)]

/-- C3 witness: re-broadcasting the lone event of a concrete group leaves its
log unchanged, and after a first broadcast into an empty log the id is
present. -/
def c3Event : GroupEvent :=
  { id := "e1", timestamp := 7, authorPeerId := "a", type := "MESSAGE_ADDED",
    payload := { text := some "hi" } }

/-- Concrete group for the C3 witness, already containing `c3Event`. -/
def c3Group : Group :=
  { id := "g3", name := "demo", myPeerId := "me", events := [c3Event], peer := none,
    connections := [], isConnecting := [], lastHeardFrom := [] }

theorem c3_insert_idempotent_witness :
    (handleData c3Group "rp" 9 (P2PMessage.eventBroadcast c3Event)).group.events
      = c3Group.events
    ∧ "e1" ∈ ((handleData c3Group "rp" 9
        (P2PMessage.eventBroadcast c3Event)).group.events.map (fun x => x.id)) :=
  ⟨(c3_insert_idempotent c3Group "rp" "rp2" 9 10 c3Event).1 (by decide),
   (c3_insert_idempotent c3Group "rp" "rp2" 9 10 c3Event).2.1⟩

/-- C4: merging the same `SYNC_RESPONSE` twice yields the same log as merging
it once. -/
theorem c4_sync_response_idempotent (g : Group) (rp rp2 : String) (now now2 : Int)
    (M : List GroupEvent) :
    (handleData ((handleData g rp now (P2PMessage.syncResponse M)).group) rp2 now2
        (P2PMessage.syncResponse M)).group.events
      = (handleData g rp now (P2PMessage.syncResponse M)).group.events := by
  have hmain : ∀ e ∈ M, e.id ∈
      ((handleData g rp now (P2PMessage.syncResponse M)).group.events.map
        (fun x => x.id)) := by
    intro e he
    rw [handleData_syncResponse_events]
    split
    · rename_i hsplit
      have hnil := List.isEmpty_iff.mp hsplit
      have hall := List.filter_eq_nil_iff.mp hnil e he
      have hcont : ((g.events.map (fun x => x.id)).contains e.id) = true := by
        by_contra hc
        exact hall (by simp [Bool.not_eq_true] at hc ⊢; exact hc)
      exact List.elem_iff.mp hcont
    · by_cases hc : e.id ∈ g.events.map (fun x => x.id)
      · rcases List.mem_map.mp hc with ⟨x, hx, hfx⟩
        exact List.mem_map.mpr
          ⟨x, mem_sortEvents.mpr (List.mem_append.mpr (Or.inl hx)), hfx⟩
      · have hfilter : e ∈ M.filter
            (fun x => !((g.events.map (fun y => y.id)).contains x.id)) := by
          apply List.mem_filter.mpr
          refine ⟨he, ?_⟩
          simp only [Bool.not_eq_true']
          exact Bool.not_eq_true _ ▸ (fun hcc => hc (List.elem_iff.mp hcc))
        exact List.mem_map.mpr
          ⟨e, mem_sortEvents.mpr (List.mem_append.mpr (Or.inr hfilter)), rfl⟩
  rw [handleData_syncResponse_events
    ((handleData g rp now (P2PMessage.syncResponse M)).group) rp2 now2 M]
  have hempty : (M.filter (fun e =>
      !(((handleData g rp now (P2PMessage.syncResponse M)).group.events.map
        (fun x => x.id)).contains e.id))).isEmpty = true := by
    rw [List.isEmpty_iff]
    apply List.filter_eq_nil_iff.mpr
    intro a ha
    simp only [Bool.not_eq_true', Bool.not_eq_false]
    exact List.elem_iff.mpr (hmain a ha)
  rw [if_pos hempty]

/-- C10: a `SYNC_RESPONSE` all of whose events are already in the local log
changes nothing except stamping `lastHeardFrom` for the sending peer — the
events, the name, the connection maps are untouched, and no frame is sent and
no dial is initiated. -/
theorem c10_redundant_sync_response (g : Group) (rp : String) (now : Int)
    (M : List GroupEvent)
    (h : ∀ e ∈ M, e.id ∈ g.events.map (fun x => x.id)) :
    (handleData g rp now (P2PMessage.syncResponse M)).group.events = g.events
    ∧ (handleData g rp now (P2PMessage.syncResponse M)).group.name = g.name
    ∧ (handleData g rp now (P2PMessage.syncResponse M)).group.connections = g.connections
    ∧ (handleData g rp now (P2PMessage.syncResponse M)).group.isConnecting = g.isConnecting
    ∧ (handleData g rp now (P2PMessage.syncResponse M)).group.lastHeardFrom
        = setKey g.lastHeardFrom rp now
    ∧ (handleData g rp now (P2PMessage.syncResponse M)).dials = []
    ∧ (handleData g rp now (P2PMessage.syncResponse M)).frames = [] := by
  have hempty : (M.filter (fun e =>
      !((g.events.map (fun x => x.id)).contains e.id))).isEmpty = true := by
    rw [List.isEmpty_iff]
    apply List.filter_eq_nil_iff.mpr
    intro a ha
    simp only [Bool.not_eq_true', Bool.not_eq_false]
    exact List.elem_iff.mpr (h a ha)
  simp only [handleData]
  rw [if_pos hempty]
  exact ⟨rfl, rfl, rfl, rfl, rfl, rfl, rfl⟩

/-- C10 witness: re-delivering the lone event of a concrete group via
`SYNC_RESPONSE` only stamps `lastHeardFrom`. -/
def c10Group : Group :=
  { id := "gT", name := "demo", myPeerId := "me",
    events := [{ id := "e1", timestamp := 3, authorPeerId := "a",
                 type := "MESSAGE_ADDED", payload := {} }],
    peer := none, connections := [], isConnecting := [], lastHeardFrom := [] }

theorem c10_redundant_sync_response_witness :
    (handleData c10Group "peerB" 44 (P2PMessage.syncResponse c10Group.events)).group.events
      = c10Group.events
    ∧ (handleData c10Group "peerB" 44
        (P2PMessage.syncResponse c10Group.events)).group.lastHeardFrom
      = setKey c10Group.lastHeardFrom "peerB" 44
    ∧ (handleData c10Group "peerB" 44 (P2PMessage.syncResponse c10Group.events)).dials
      = [] := by
  have h := c10_redundant_sync_response c10Group "peerB" 44 c10Group.events (by decide)
  exact ⟨h.1, h.2.2.2.2.1, h.2.2.2.2.2.1⟩

/-- C9: at a supervisor tick, an open session whose silence
`now − lastHeardFrom` exceeds 30 s is closed; otherwise, silence exceeding
15 s gets a `PING`; silence of at most 15 s gets neither action (with
`lastHeardFrom[peerId] || 0` as the stamp, as in the source). -/
theorem c9_heartbeat (g : Group) (now : Int) (p : String) (c : Conn)
    (hmem : (p, c) ∈ g.connections) (hopen : c.isOpen = true) :
    ((now - ((lookupKey g.lastHeardFrom p).getD 0) > 30000 →
      (p, SessionAction.closeConn) ∈ supervisorActions g now)
    ∧ (now - ((lookupKey g.lastHeardFrom p).getD 0) ≤ 30000 →
        now - ((lookupKey g.lastHeardFrom p).getD 0) > 15000 →
      (p, SessionAction.sendPing) ∈ supervisorActions g now)
    ∧ (now - ((lookupKey g.lastHeardFrom p).getD 0) ≤ 15000 →
      (p, SessionAction.keepSilent) ∈ supervisorActions g now)) := by
  refine ⟨fun h30 => ?_, fun h30 h15 => ?_, fun h15 => ?_⟩
  · apply List.mem_filterMap.mpr
    refine ⟨(p, c), hmem, ?_⟩
    simp [hopen, sessionAction, h30]
  · apply List.mem_filterMap.mpr
    refine ⟨(p, c), hmem, ?_⟩
    simp [hopen, sessionAction, h15, not_lt.mpr h30]
  · apply List.mem_filterMap.mpr
    refine ⟨(p, c), hmem, ?_⟩
    have h30 : ¬ now - ((lookupKey g.lastHeardFrom p).getD 0) > 30000 :=
      not_lt.mpr (le_trans h15 (by norm_num))
    simp [hopen, sessionAction, not_lt.mpr h15, h30]

/-- C9 witness: a concrete group with three open sessions, silent for 40 s,
20 s and 10 s, receives close, ping and nothing respectively. -/
def c9Group : Group :=
  { id := "g9", name := "demo", myPeerId := "me", events := [], peer := none,
    connections := [("a", { isOpen := true }), ("b", { isOpen := true }),
      ("c", { isOpen := true })],
    isConnecting := [],
    lastHeardFrom := [("a", 0), ("b", 20000), ("c", 30000)] }

theorem c9_heartbeat_witness :
    ("a", SessionAction.closeConn) ∈ supervisorActions c9Group 40000
    ∧ ("b", SessionAction.sendPing) ∈ supervisorActions c9Group 40000
    ∧ ("c", SessionAction.keepSilent) ∈ supervisorActions c9Group 40000 :=
  ⟨(c9_heartbeat c9Group 40000 "a" { isOpen := true } (by decide) rfl).1 (by decide),
   (c9_heartbeat c9Group 40000 "b" { isOpen := true } (by decide) rfl).2.1
     (by decide) (by decide),
   (c9_heartbeat c9Group 40000 "c" { isOpen := true } (by decide) rfl).2.2 (by decide)⟩

/-- C8: `joinGroup` on an invite that failed to parse, or whose parsed object
lacks a `groupId` or `peerId` field, shows the invalid-invite alert and leaves
the store state (groups, their logs, `activeGroupId`) and the persisted blob
unchanged. -/
theorem c8_invalid_invite (st : StoreState) (blob : Option PersistedState)
    (parsedInvite : Option Invite) (freshPeerId : String) (now : Int)
    (h : parsedInvite = none
      ∨ ∃ invite, parsedInvite = some invite
          ∧ (invite.groupId = none ∨ invite.peerId = none)) :
    (joinGroup st blob parsedInvite freshPeerId now).state = st
    ∧ (joinGroup st blob parsedInvite freshPeerId now).blob = blob
    ∧ (joinGroup st blob parsedInvite freshPeerId now).invalidInvite = true := by
  rcases h with h | ⟨invite, hsome, hmiss⟩
  · subst h
    exact ⟨rfl, rfl, rfl⟩
  · subst hsome
    have hcond : (!(truthyName invite.groupId) || !(truthyName invite.peerId)) = true := by
      rcases hmiss with hm | hm <;> rw [hm] <;> simp [truthyName]
    simp only [joinGroup]
    rw [if_pos hcond]
    exact ⟨rfl, rfl, rfl⟩

/-- C8 witness: a concrete store is unchanged by an unparsable invite and by
an invite missing its `peerId`. -/
def c8Group : Group :=
  { id := "g8", name := "demo", myPeerId := "me", events := [], peer := none,
    connections := [], isConnecting := [], lastHeardFrom := [] }

/-- Concrete store for the C8 witness. -/
def c8Store : StoreState :=
  { groups := [("g8", c8Group)], activeGroupId := some "g8" }

theorem c8_invalid_invite_witness :
    (joinGroup c8Store none none "fresh" 5).state = c8Store
    ∧ (joinGroup c8Store none
        (some { groupId := some "g8", peerId := none }) "fresh" 5).state = c8Store
    ∧ (joinGroup c8Store none
        (some { groupId := some "g8", peerId := none }) "fresh" 5).invalidInvite = true :=
  ⟨(c8_invalid_invite c8Store none none "fresh" 5 (Or.inl rfl)).1,
   (c8_invalid_invite c8Store none (some { groupId := some "g8", peerId := none })
      "fresh" 5 (Or.inr ⟨_, rfl, Or.inr rfl⟩)).1,
   (c8_invalid_invite c8Store none (some { groupId := some "g8", peerId := none })
      "fresh" 5 (Or.inr ⟨_, rfl, Or.inr rfl⟩)).2.2⟩

/-- Concrete genesis event for the C6 evidence. -/
def c6Event : GroupEvent :=
  { id := "e0", timestamp := 1, authorPeerId := "me", type := "GROUP_CREATED",
    payload := { name := some "demo" } }

/-- Concrete group for the C6 evidence. -/
def c6Group : Group :=
  { id := "g1", name := "demo", myPeerId := "me", events := [c6Event], peer := none,
    connections := [], isConnecting := [], lastHeardFrom := [] }

/-- Store whose only group is `g1`, the C6 failing input. -/
def c6Store : StoreState :=
  { groups := [("g1", c6Group)], activeGroupId := some "g1" }

/-- C6 evidence: leaving the only group removes it from the in-memory group
set, but the persisted blob still contains it (the purge write is skipped
because `saveStoredState` returns without writing when the group map is
empty, while the `MEMBER_LEFT` broadcast has just persisted the group), so
the next `initializeStore` recreates the group. -/
theorem c6_last_group_recreated :
    (lookupKey (leaveGroup c6Store none "g1" "f1" 2).1.groups "g1").isNone = true
    ∧ (getStoredState (leaveGroup c6Store none "g1" "f1" 2).2).groups.map Prod.fst = ["g1"]
    ∧ (lookupKey (initStoreState (leaveGroup c6Store none "g1" "f1" 2).2).groups
        "g1").isSome = true := by
  decide

theorem handleData_syncResponse_name (g : Group) (rp : String) (now : Int)
    (M : List GroupEvent) :
    (handleData g rp now (P2PMessage.syncResponse M)).group.name =
      if (M.filter (fun e => !((g.events.map (fun x => x.id)).contains e.id))).isEmpty
      then g.name
      else if truthyName (((sortEvents (g.events ++ M.filter
          (fun e => !((g.events.map (fun x => x.id)).contains e.id)))).find?
            (fun e => e.type == "GROUP_CREATED")).bind (fun e => e.payload.name))
          && (g.name == "Joining...")
        then (((sortEvents (g.events ++ M.filter
          (fun e => !((g.events.map (fun x => x.id)).contains e.id)))).find?
            (fun e => e.type == "GROUP_CREATED")).bind
              (fun e => e.payload.name)).getD g.name
        else g.name := by
  simp only [handleData]
  split <;> rename_i h
  · simp_all
  · simp_all [(dialAll_proj _ _ _).2]

/-- Concrete joining group for the C7 counterexample. -/
def c7JoinGroup : Group :=
  { id := "g7", name := "Joining...", myPeerId := "me", events := [], peer := none,
    connections := [], isConnecting := [], lastHeardFrom := [] }

/-- A `GROUP_CREATED` event whose `payload.name` is the empty string
(JS-falsy). -/
def c7EmptyNameEvent : GroupEvent :=
  { id := "c0", timestamp := 1, authorPeerId := "creator", type := "GROUP_CREATED",
    payload := { name := some "" } }

/-- C7 counterexample: a `SYNC_RESPONSE` delivering a new `GROUP_CREATED`
event whose `payload.name` is the empty string is merged, but the placeholder
name is NOT replaced by that event's `payload.name` (the JS truthiness guard
rejects `""`), contradicting the claim as stated. -/
theorem c7_counterexample :
    (handleData c7JoinGroup "boot" 10
        (P2PMessage.syncResponse [c7EmptyNameEvent])).group.events = [c7EmptyNameEvent]
    ∧ c7EmptyNameEvent.payload.name = some ""
    ∧ c7JoinGroup.name = "Joining..."
    ∧ (handleData c7JoinGroup "boot" 10
        (P2PMessage.syncResponse [c7EmptyNameEvent])).group.name = "Joining..."
    ∧ ¬ ((handleData c7JoinGroup "boot" 10
        (P2PMessage.syncResponse [c7EmptyNameEvent])).group.name = "") := by
  decide

/-- C7 (amended): a group whose name is the join placeholder and whose log
has no `GROUP_CREATED` event adopts, on a `SYNC_RESPONSE` delivering a new
`GROUP_CREATED` event (the only `GROUP_CREATED` among the delivered events)
whose `payload.name` is a non-empty string, that string as its name; and a
group whose name is not the placeholder keeps its name. -/
theorem c7_placeholder_name :
    (∀ (g : Group) (rp : String) (now : Int) (M : List GroupEvent)
        (e : GroupEvent) (s : String),
      g.name = "Joining..." →
      (∀ x ∈ g.events, ¬ x.type = "GROUP_CREATED") →
      e ∈ M →
      (¬ e.id ∈ g.events.map (fun x => x.id)) →
      (∀ x ∈ M, x.type = "GROUP_CREATED" → x = e) →
      e.type = "GROUP_CREATED" →
      e.payload.name = some s →
      ¬ s = "" →
      (handleData g rp now (P2PMessage.syncResponse M)).group.name = s)
    ∧ (∀ (g : Group) (rp : String) (now : Int) (M : List GroupEvent),
      ¬ g.name = "Joining..." →
      (handleData g rp now (P2PMessage.syncResponse M)).group.name = g.name) := by
  constructor
  · intro g rp now M e s hplace hnoGC he henew hexcl htype hname hs
    have hcf : ((g.events.map (fun y => y.id)).contains e.id) = false := by
      cases hcc : ((g.events.map (fun y => y.id)).contains e.id)
      · rfl
      · exact absurd (List.elem_iff.mp hcc) henew
    have hmemu : e ∈ M.filter (fun x => !((g.events.map (fun y => y.id)).contains x.id)) := by
      apply List.mem_filter.mpr
      refine ⟨he, ?_⟩
      show (!((g.events.map (fun y => y.id)).contains e.id)) = true
      rw [hcf]
      rfl
    have hemp : (M.filter (fun x =>
        !((g.events.map (fun y => y.id)).contains x.id))).isEmpty = false :=
      List.isEmpty_eq_false.mpr (List.ne_nil_of_mem hmemu)
    have hfind : ((sortEvents (g.events ++ M.filter (fun x =>
        !((g.events.map (fun y => y.id)).contains x.id)))).find?
          (fun x => x.type == "GROUP_CREATED")) = some e := by
      have hein : e ∈ sortEvents (g.events ++ M.filter (fun x =>
          !((g.events.map (fun y => y.id)).contains x.id))) :=
        mem_sortEvents.mpr (List.mem_append.mpr (Or.inr hmemu))
      have hsome : ((sortEvents (g.events ++ M.filter (fun x =>
          !((g.events.map (fun y => y.id)).contains x.id)))).find?
            (fun x => x.type == "GROUP_CREATED")).isSome = true :=
        List.find?_isSome.mpr ⟨e, hein, by simp [htype]⟩
      rcases Option.isSome_iff_exists.mp hsome with ⟨x, hx⟩
      have hpx0 := List.find?_some hx
      have hpx : x.type = "GROUP_CREATED" := beq_iff_eq.mp hpx0
      have hxmem : x ∈ sortEvents (g.events ++ M.filter (fun x =>
          !((g.events.map (fun y => y.id)).contains x.id))) :=
        List.mem_of_find?_eq_some hx
      have hxe : x = e := by
        rcases List.mem_append.mp (mem_sortEvents.mp hxmem) with hxg | hxf
        · exact absurd hpx (hnoGC x hxg)
        · exact hexcl x (List.mem_filter.mp hxf).1 hpx
      rw [hx, hxe]
    rw [handleData_syncResponse_name,
      if_neg (by rw [hemp]; exact Bool.false_ne_true), hfind]
    have hts : truthyName (some s) = true := by
      simp only [truthyName, Bool.not_eq_true']
      cases hine : s.isEmpty
      · rfl
      · exact absurd ((String.isEmpty_iff s).mp hine) hs
    simp [hts, hplace, hname]
  · intro g rp now M hnp
    rw [handleData_syncResponse_name]
    have hbf : (g.name == "Joining...") = false := beq_eq_false_iff_ne.mpr hnp
    split
    · rfl
    · simp [hbf]

/-- C7 witness: the amended theorem applied to a concrete joining group that
receives a `GROUP_CREATED` event named "demo", and to a concrete
already-named group. -/
def c7NamedEvent : GroupEvent :=
  { id := "c1", timestamp := 1, authorPeerId := "creator", type := "GROUP_CREATED",
    payload := { name := some "demo" } }

/-- Concrete group with a finalised name, for the second half of the C7
witness. -/
def c7NamedGroup : Group :=
  { id := "g7", name := "demo", myPeerId := "me", events := [], peer := none,
    connections := [], isConnecting := [], lastHeardFrom := [] }

theorem c7_placeholder_name_witness :
    (handleData c7JoinGroup "boot" 10
        (P2PMessage.syncResponse [c7NamedEvent])).group.name = "demo"
    ∧ (handleData c7NamedGroup "boot" 10
        (P2PMessage.syncResponse [c7NamedEvent])).group.name = "demo" :=
  ⟨c7_placeholder_name.1 c7JoinGroup "boot" 10 [c7NamedEvent] c7NamedEvent "demo"
      rfl (by decide) (by decide) (by decide) (by decide) rfl rfl (by decide),
   c7_placeholder_name.2 c7NamedGroup "boot" 10 [c7NamedEvent] (by decide)⟩

end Tibidi
